import Mathlib

/-!
Verification of the iii-cli update-and-install pipeline.

A shallow embedding, in Lean 4, of the core of the `iii-hq/iii-cli` binary
dispatcher: semantic versions (the `semver` crate surface used by the code),
the persisted `AppState` (src/state.rs), the static registry
(src/registry.rs), the update orchestrator (src/update.rs), checksum
verification and atomic installation (src/download.rs), the advisory
checker (src/advisory.rs), and the relevant slices of command handling
(src/main.rs).

Effectful boundaries (HTTP fetches, the filesystem, the wall clock, the
SHA-256 routine of the `sha2` crate, the bounded timeout) are modelled as
explicit parameters or as a small explicit filesystem state; the control
flow of the repository's own functions is translated statement by
statement from the Rust source.
-/

namespace III

/-! ## Characters and numerals

Helpers for the semantic-version grammar of the `semver` crate:
ASCII digits, alphanumeric-or-hyphen identifier characters, and decimal
numerals without leading zeros.
-/

def isDigitCh (c : Char) : Bool := '0' ≤ c && c ≤ '9'

def isIdentCh (c : Char) : Bool :=
  isDigitCh c || ('a' ≤ c && c ≤ 'z') || ('A' ≤ c && c ≤ 'Z') || c = '-'

/-- The decimal digit character for `d < 10` (a default for other inputs). -/
def digitCh (d : Nat) : Char :=
  match d with
  | 0 => '0' | 1 => '1' | 2 => '2' | 3 => '3' | 4 => '4'
  | 5 => '5' | 6 => '6' | 7 => '7' | 8 => '8' | 9 => '9'
  | _ => '*'

/-- The numeric value of a decimal digit character. -/
def digitVal (c : Char) : Nat := c.toNat - '0'.toNat

/-- Little-endian decimal digit characters of `n`, with explicit fuel so
that the kernel can evaluate it (agrees with `Nat.digits 10 n` for
sufficient fuel; see `natToCharsAux_eq_digits`). -/
def natToCharsAux (fuel : Nat) (n : Nat) : List Char :=
  match fuel with
  | 0 => []
  | fuel + 1 => if n = 0 then [] else digitCh (n % 10) :: natToCharsAux fuel (n / 10)

/-- Decimal rendering of a natural number, most significant digit first. -/
def natToChars (n : Nat) : List Char :=
  if n = 0 then ['0'] else (natToCharsAux n n).reverse

/-- Value of a digit string, most significant digit first. -/
def charsToNat (cs : List Char) : Nat :=
  Nat.ofDigits 10 ((cs.map digitVal).reverse)

/-- A valid semver numeric component: nonempty, all digits, no leading zero. -/
def numeralOk (cs : List Char) : Bool :=
  !cs.isEmpty && cs.all isDigitCh && (cs.head? != some '0' || cs == ['0'])

def parseNumeral (cs : List Char) : Option Nat :=
  if numeralOk cs then some (charsToNat cs) else none

/-! ## List splitting helpers (char-level) -/

/-- Split at the first occurrence of `c`: the part before it, and
(if `c` occurs) the part after it. -/
def splitFirst (c : Char) : List Char → List Char × Option (List Char)
  | [] => ([], none)
  | x :: xs =>
    if x = c then ([], some xs)
    else
      let r := splitFirst c xs
      (x :: r.1, r.2)

/-- Split on every occurrence of `c` (like `str::split`): always at least
one part, empty parts preserved. -/
def splitOnCh (c : Char) : List Char → List (List Char)
  | [] => [[]]
  | x :: xs =>
    if x = c then [] :: splitOnCh c xs
    else
      match splitOnCh c xs with
      | [] => [[x]]
      | p :: ps => (x :: p) :: ps

/-- Join parts with the separator `c` between them. -/
def joinSep (c : Char) : List (List Char) → List Char
  | [] => []
  | [p] => p
  | p :: ps => p ++ c :: joinSep c ps

/-! ## Semantic versions (the `semver` crate surface used by iii-cli)

`Version` mirrors `semver::Version`: major/minor/patch numerals, a
dot-separated pre-release, and dot-separated build metadata.  Numeric
components are unbounded naturals (the crate bounds them by `u64`; no
claim depends on the bound).
-/

structure Version where
  major : Nat
  minor : Nat
  patch : Nat
  pre : List String := []
  build : List String := []
deriving DecidableEq, Repr, BEq

/-- A valid pre-release identifier: nonempty, alphanumeric-or-hyphen,
and if purely numeric it must not have a leading zero. -/
def preIdentOk (cs : List Char) : Bool :=
  !cs.isEmpty && cs.all isIdentCh && (!cs.all isDigitCh || numeralOk cs)

/-- A valid build identifier: nonempty, alphanumeric-or-hyphen
(leading zeros are allowed in build metadata). -/
def buildIdentOk (cs : List Char) : Bool :=
  !cs.isEmpty && cs.all isIdentCh

/-- Rust `semver::Version::parse` on a list of characters: `X.Y.Z` with
optional `-pre` and `+build` parts. -/
def Version.parseChars (cs : List Char) : Option Version :=
  let s1 := splitFirst '+' cs
  let s2 := splitFirst '-' s1.1
  match splitOnCh '.' s2.1 with
  | [a, b, c] =>
    match parseNumeral a, parseNumeral b, parseNumeral c with
    | some ma, some mi, some pa =>
      let preIds : Option (List (List Char)) :=
        match s2.2 with
        | none => some []
        | some p =>
          let parts := splitOnCh '.' p
          if parts.all preIdentOk then some parts else none
      let buildIds : Option (List (List Char)) :=
        match s1.2 with
        | none => some []
        | some bstr =>
          let parts := splitOnCh '.' bstr
          if parts.all buildIdentOk then some parts else none
      match preIds, buildIds with
      | some pis, some bis =>
        some ⟨ma, mi, pa, pis.map (fun l => String.mk l), bis.map (fun l => String.mk l)⟩
      | _, _ => none
    | _, _, _ => none
  | _ => none

def Version.parse (s : String) : Option Version := Version.parseChars s.data

/-- Rust `Display` for `semver::Version`. -/
def Version.toChars (v : Version) : List Char :=
  natToChars v.major ++ '.' :: natToChars v.minor ++ '.' :: natToChars v.patch
    ++ (match v.pre with
        | [] => []
        | ps => '-' :: joinSep '.' (ps.map String.data))
    ++ (match v.build with
        | [] => []
        | bs => '+' :: joinSep '.' (bs.map String.data))

def Version.toStr (v : Version) : String := String.mk v.toChars

/-- Well-formed version: every pre-release and build identifier is valid.
Every `Version` the program constructs comes out of `Version.parse`, and
those all satisfy this predicate. -/
def Version.wf (v : Version) : Bool :=
  v.pre.all (fun s => preIdentOk s.data) && v.build.all (fun s => buildIdentOk s.data)

/-! ### Version ordering (the crate's `Ord` instance) -/

/-- Character-code lexicographic order on identifier strings. -/
def lexLt : List Char → List Char → Bool
  | [], [] => false
  | [], _ :: _ => true
  | _ :: _, [] => false
  | a :: as, b :: bs => if a = b then lexLt as bs else a.toNat < b.toNat

/-- Order on single pre-release identifiers: numeric identifiers compare
numerically and are lower than alphanumeric ones; alphanumeric ones
compare lexically. -/
def identLt (a b : List Char) : Bool :=
  match a.all isDigitCh, b.all isDigitCh with
  | true, true => charsToNat a < charsToNat b
  | true, false => true
  | false, true => false
  | false, false => lexLt a b

/-- Lexicographic order on identifier lists; a strict prefix is smaller. -/
def identListLt : List (List Char) → List (List Char) → Bool
  | [], [] => false
  | [], _ :: _ => true
  | _ :: _, [] => false
  | a :: as, b :: bs => if a = b then identListLt as bs else identLt a b

/-- Pre-release precedence: an empty pre-release is the greatest. -/
def preLt (a b : List String) : Bool :=
  match a, b with
  | [], _ => false
  | _ :: _, [] => true
  | _, _ => identListLt (a.map String.data) (b.map String.data)

/-- Build-metadata order (the crate compares it last, to stay consistent
with structural equality); absent build metadata is the least. -/
def buildLt (a b : List String) : Bool :=
  match a, b with
  | _, [] => false
  | [], _ :: _ => true
  | _, _ => identListLt (a.map String.data) (b.map String.data)

/-- Rust `semver::Version`'s strict order. -/
def versionLt (x y : Version) : Bool :=
  if x.major ≠ y.major then x.major < y.major
  else if x.minor ≠ y.minor then x.minor < y.minor
  else if x.patch ≠ y.patch then x.patch < y.patch
  else if x.pre ≠ y.pre then preLt x.pre y.pre
  else buildLt x.build y.build

def versionLe (x y : Version) : Bool := versionLt x y || decide (x = y)

/-- Rust `github::parse_release_version`: strip a leading 'v' and parse. -/
def parse_release_version (tag : String) : Option Version :=
  match tag.data with
  | 'v' :: rest => Version.parseChars rest
  | cs => Version.parseChars cs

/-! ## Association lists

Model of `std::collections::HashMap<String, _>` as used by
`AppState.binaries`: an association list with unique keys.  `insertAL`
mirrors `HashMap::insert` (overwrite in place or append). -/

def lookupAL {α : Type} : List (String × α) → String → Option α
  | [], _ => none
  | (k', v) :: rest, k => if k' = k then some v else lookupAL rest k

def insertAL {α : Type} : List (String × α) → String → α → List (String × α)
  | [], k, v => [(k, v)]
  | (k', v') :: rest, k, v =>
    if k' = k then (k, v) :: rest else (k', v') :: insertAL rest k v

/-! ## Time

`chrono::DateTime<Utc>` instants are modelled as integer nanosecond
timestamps; `chrono::Duration::num_hours` is whole hours of the signed
difference, truncated toward zero (via whole seconds, as in chrono). -/

/-- Whole hours in a signed duration of `nanos` nanoseconds
(`Duration::num_hours`, truncation toward zero at each step). -/
def numHours (nanos : Int) : Int := (nanos.tdiv 1000000000).tdiv 3600

/-- The `as i64` cast applied to the `u64` check interval in
`is_update_check_due` (two's-complement wrap). -/
def u64AsI64 (n : Nat) : Int :=
  if n % 2 ^ 64 < 2 ^ 63 then (n % 2 ^ 64 : Int) else (n % 2 ^ 64 : Int) - 2 ^ 64

/-! ## Persistent state (src/state.rs) -/

/-- Rust `state::BinaryState`: record for one installed binary. -/
structure BinaryState where
  version : Version
  installed_at : Int
  asset_name : String
deriving DecidableEq, Repr

/-- Rust `state::AppState`: the persisted process-wide record.  The interval
is a `u64` in the source; values are `< 2^64`. -/
structure AppState where
  binaries : List (String × BinaryState) := []
  last_update_check : Option Int := none
  update_check_interval_hours : Nat := 24
deriving DecidableEq, Repr

/-- Rust `AppState::default()`. -/
def AppState.default : AppState := {}

/-- Rust `AppState::is_update_check_due`, with the wall clock `now` passed
explicitly (the source reads `Utc::now()`). -/
def AppState.is_update_check_due (s : AppState) (now : Int) : Bool :=
  match s.last_update_check with
  | none => true
  | some last => decide (u64AsI64 s.update_check_interval_hours ≤ numHours (now - last))

/-- Rust `AppState::record_install` (upsert stamping the current instant). -/
def AppState.record_install (s : AppState) (binary_name : String) (version : Version)
    (asset_name : String) (now : Int) : AppState :=
  { s with binaries := insertAL s.binaries binary_name ⟨version, now, asset_name⟩ }

/-- Rust `AppState::installed_version`. -/
def AppState.installed_version (s : AppState) (binary_name : String) : Option Version :=
  (lookupAL s.binaries binary_name).map (·.version)

/-- Rust `AppState::mark_update_checked`. -/
def AppState.mark_update_checked (s : AppState) (now : Int) : AppState :=
  { s with last_update_check := some now }

/-! ## Registry (src/registry.rs) -/

/-- Rust `registry::CommandMapping`. -/
structure CommandMapping where
  cli_command : String
  binary_subcommand : Option String
deriving DecidableEq, Repr

/-- Rust `registry::BinarySpec`. -/
structure BinarySpec where
  name : String
  repo : String
  has_checksum : Bool
  supported_targets : List String
  commands : List CommandMapping
deriving DecidableEq, Repr

/-- Rust `registry::SELF_SPEC`: iii-cli itself, never part of the registry. -/
def SELF_SPEC : BinarySpec :=
  { name := "iii-cli"
    repo := "iii-hq/iii-cli"
    has_checksum := true
    supported_targets :=
      [ "aarch64-apple-darwin", "x86_64-apple-darwin", "x86_64-pc-windows-msvc"
      , "aarch64-pc-windows-msvc", "x86_64-unknown-linux-gnu"
      , "x86_64-unknown-linux-musl", "aarch64-unknown-linux-gnu" ]
    commands := [] }

/-- Rust `registry::REGISTRY`: the compiled-in binary registry. -/
def REGISTRY : List BinarySpec :=
  [ { name := "iii-console"
      repo := "iii-hq/console"
      has_checksum := true
      supported_targets :=
        [ "aarch64-apple-darwin", "x86_64-apple-darwin", "x86_64-pc-windows-msvc"
        , "aarch64-pc-windows-msvc", "x86_64-unknown-linux-gnu"
        , "x86_64-unknown-linux-musl", "aarch64-unknown-linux-gnu" ]
      commands := [⟨"console", none⟩] }
  , { name := "iii-tools"
      repo := "iii-hq/cli-tooling"
      has_checksum := false
      supported_targets :=
        [ "aarch64-apple-darwin", "x86_64-apple-darwin", "x86_64-unknown-linux-gnu"
        , "x86_64-unknown-linux-musl", "aarch64-unknown-linux-gnu" ]
      commands := [⟨"create", some "create"⟩] }
  , { name := "motia-cli"
      repo := "MotiaDev/motia-cli"
      has_checksum := false
      supported_targets :=
        [ "aarch64-apple-darwin", "x86_64-apple-darwin", "x86_64-pc-windows-msvc"
        , "aarch64-pc-windows-msvc", "x86_64-unknown-linux-gnu"
        , "x86_64-unknown-linux-musl", "aarch64-unknown-linux-gnu"
        , "armv7-unknown-linux-gnueabihf" ]
      commands := [⟨"motia", none⟩] }
  , { name := "iii"
      repo := "iii-hq/iii"
      has_checksum := false
      supported_targets :=
        [ "aarch64-apple-darwin", "x86_64-apple-darwin", "x86_64-pc-windows-msvc"
        , "aarch64-pc-windows-msvc", "x86_64-unknown-linux-gnu"
        , "x86_64-unknown-linux-musl", "aarch64-unknown-linux-gnu"
        , "armv7-unknown-linux-gnueabihf" ]
      commands := [⟨"start", none⟩] } ]

/-- Rust `registry::all_binaries()` (an iterator over `REGISTRY`). -/
def all_binaries : List BinarySpec := REGISTRY

/-! ## Errors (src/error.rs) -/

inductive NetworkError where
  | RequestFailed (msg : String)
  | RateLimited
  | AssetNotFound (binary : String) (platform : String)
deriving DecidableEq, Repr

inductive RegistryError where
  | UnknownCommand (command : String)
  | UnsupportedPlatform (binary : String) (platform : String) (supported : String)
  | NoReleasesAvailable (binary : String)
deriving DecidableEq, Repr

inductive DownloadError where
  | Failed (msg : String)
  | ChecksumMismatch (asset : String) (expected : String) (actual : String)
  | Http (msg : String)
deriving DecidableEq, Repr

inductive ExtractError where
  | ExtractionFailed (msg : String)
  | Io (msg : String)
deriving DecidableEq, Repr

/-- Rust `github::IiiGithubError` (the `Reqwest` transport case is folded into
`Network (RequestFailed _)`, as the claims never distinguish them). -/
inductive IiiGithubError where
  | Network (e : NetworkError)
  | Registry (e : RegistryError)
deriving DecidableEq, Repr

/-- Rust `download::DownloadAndInstallError`. -/
inductive DownloadAndInstallError where
  | Download (e : DownloadError)
  | Extract (e : ExtractError)
deriving DecidableEq, Repr

/-- Rust `update::UpdateError` (the `VersionParse` payload is the rendered
`semver::Error` message; no claim inspects its text). -/
inductive UpdateError where
  | Registry (e : RegistryError)
  | Github (e : IiiGithubError)
  | VersionParse
  | Download (e : DownloadAndInstallError)
deriving DecidableEq, Repr

/-- Decidable equality for `Except` results (not provided by core). -/
instance {ε α : Type} [DecidableEq ε] [DecidableEq α] : DecidableEq (Except ε α) := fun a b =>
  match a, b with
  | .error e, .error f =>
    match decEq e f with
    | isTrue h => isTrue (by rw [h])
    | isFalse h => isFalse (by intro hh; cases hh; exact h rfl)
  | .error _, .ok _ => isFalse (by intro hh; cases hh)
  | .ok _, .error _ => isFalse (by intro hh; cases hh)
  | .ok v, .ok w =>
    match decEq v w with
    | isTrue h => isTrue (by rw [h])
    | isFalse h => isFalse (by intro hh; cases hh; exact h rfl)

/-! ## Releases and platform resolution (src/github.rs, src/platform.rs) -/

/-- Rust `github::ReleaseAsset`. -/
structure ReleaseAsset where
  name : String
  browser_download_url : String
  size : Nat
deriving DecidableEq, Repr

/-- Rust `github::Release`. -/
structure Release where
  tag_name : String
  assets : List ReleaseAsset
deriving DecidableEq, Repr

/-- Rust `github::find_asset`: first asset with exactly the given filename. -/
def find_asset (release : Release) (asset_name : String) : Option ReleaseAsset :=
  release.assets.find? (fun a => a.name = asset_name)

/-- Rust `platform::archive_extension()` on the non-Windows build of the tool
(the sources compile the zip variant only on Windows). -/
def archive_extension : String := "tar.gz"

/-- Rust `platform::asset_name`, with `platform::current_target()` passed
explicitly (it is fixed at compile time in the source). -/
def asset_name (binary_name : String) (target : String) : String :=
  binary_name ++ "-" ++ target ++ "." ++ archive_extension

/-- Rust `platform::checksum_asset_name` (no archive extension). -/
def checksum_asset_name (binary_name : String) (target : String) : String :=
  binary_name ++ "-" ++ target ++ ".sha256"

/-- Rust `platform::format_target_human`. -/
def format_target_human (target : String) : String :=
  if target = "aarch64-apple-darwin" then "macOS (Apple Silicon)"
  else if target = "x86_64-apple-darwin" then "macOS (Intel)"
  else if target = "x86_64-unknown-linux-gnu" then "Linux x86_64 (glibc)"
  else if target = "x86_64-unknown-linux-musl" then "Linux x86_64 (musl)"
  else if target = "aarch64-unknown-linux-gnu" then "Linux ARM64"
  else if target = "x86_64-pc-windows-msvc" then "Windows x86_64"
  else if target = "aarch64-pc-windows-msvc" then "Windows ARM64"
  else target

/-- Rust `platform::check_platform_support`. -/
def check_platform_support (spec : BinarySpec) (target : String) :
    Except RegistryError Unit :=
  if spec.supported_targets.contains target then .ok ()
  else
    .error (.UnsupportedPlatform spec.name (format_target_human target)
      (String.intercalate ", " (spec.supported_targets.map format_target_human)))

/-! ## Checksum verification (src/download.rs)

`verify_checksum` receives the already-fetched sidecar text (the HTTP
fetch is an effect outside the function's decision logic) and the digest
routine of the `sha2` crate as an explicit parameter `sha256hex`
(lowercase hex rendering of the 256-bit digest, as `format!("{:x}", …)`
produces). -/

/-- Rust `checksum_text.split_whitespace().next()`. -/
def firstToken (s : String) : Option (List Char) :=
  let rest := s.data.dropWhile (fun c => c.isWhitespace)
  match rest with
  | [] => none
  | _ => some (rest.takeWhile (fun c => !c.isWhitespace))

/-- Rust `download::verify_checksum`. -/
def verify_checksum (sha256hex : List Nat → String) (checksum_text : String)
    (data : List Nat) (asset_name : String) : Except DownloadError Unit :=
  match firstToken checksum_text with
  | none => .error (.Failed "Empty checksum file")
  | some tok =>
    let expected := String.mk (tok.map Char.toLower)
    let actual := sha256hex data
    if actual = expected then .ok ()
    else .error (.ChecksumMismatch asset_name expected actual)

/-! ## Update orchestrator (src/update.rs)

The effects each update consults — file presence on disk, the GitHub
fetch, and the download-and-install pipeline — are bundled in an
`UpdateEnv` oracle.  `update_binary` additionally reports (in
`downloaded`) whether the download/install step was reached, so that
"no download is attempted" is a provable statement. -/

structure UpdateEnv where
  /-- Rust `platform::binary_path(name).exists()`. -/
  managedExists : Bool
  /-- Rust `platform::find_existing_binary(name).is_some()`. -/
  foundOnPath : Bool
  /-- Outcome of `github::fetch_latest_release`. -/
  fetchRelease : Except IiiGithubError Release
  /-- Outcome of `download::download_and_install`. -/
  downloadResult : Except DownloadAndInstallError Unit

/-- Rust `update::is_binary_installed`. -/
def is_binary_installed (env : UpdateEnv) : Bool :=
  env.managedExists || env.foundOnPath

/-- Rust `update::UpdateResult`. -/
inductive UpdateResult where
  | Updated (binary : String) (from_ver : Option Version) (to_ver : Version)
  | AlreadyUpToDate (binary : String) (version : Version)
deriving DecidableEq, Repr

/-- Rust `update::UpdateInfo`. -/
structure UpdateInfo where
  binary_name : String
  current_version : Version
  latest_version : Version
deriving DecidableEq, Repr

/-- Result of one orchestrated update: the reported result, the state
after the call (the source mutates `&mut AppState`), and whether the
download/install step ran. -/
structure UpdateOutcome where
  result : Except UpdateError UpdateResult
  state : AppState
  downloaded : Bool
deriving DecidableEq, Repr

/-- Rust `update::update_binary`, translated arm by arm from the source. -/
def update_binary (target : String) (now : Int) (spec : BinarySpec)
    (env : UpdateEnv) (state : AppState) : UpdateOutcome :=
  match check_platform_support spec target with
  | .error e => ⟨.error (.Registry e), state, false⟩
  | .ok _ =>
    let binary_installed := is_binary_installed env
    match env.fetchRelease with
    | .error e => ⟨.error (.Github e), state, false⟩
    | .ok release =>
      match parse_release_version release.tag_name with
      | none => ⟨.error .VersionParse, state, false⟩
      | some latest_version =>
        -- "already up to date" only if the binary file actually exists on disk
        let short_circuit : Option Version :=
          if binary_installed then
            match state.installed_version spec.name with
            | some installed =>
              if versionLe latest_version installed then some installed else none
            | none => none
          else none
        match short_circuit with
        | some installed => ⟨.ok (.AlreadyUpToDate spec.name installed), state, false⟩
        | none =>
          match find_asset release (asset_name spec.name target) with
          | none =>
            ⟨.error (.Github (.Network (.AssetNotFound spec.name target))), state, false⟩
          | some _asset =>
            let _checksum_url : Option String :=
              if spec.has_checksum then
                (find_asset release (checksum_asset_name spec.name target)).map
                  (·.browser_download_url)
              else none
            -- previous version only counts if the binary exists on disk
            let previous_version :=
              if binary_installed then state.installed_version spec.name else none
            match env.downloadResult with
            | .error e => ⟨.error (.Download e), state, true⟩
            | .ok _ =>
              let state' :=
                state.record_install spec.name latest_version
                  (asset_name spec.name target) now
              ⟨.ok (.Updated spec.name previous_version latest_version), state', true⟩

/-- Rust `update::self_update`, with the compile-time `CARGO_PKG_VERSION` of
the running build passed as `compile_time_version`. -/
def self_update (target : String) (now : Int) (compile_time_version : Version)
    (env : UpdateEnv) (state : AppState) : UpdateOutcome :=
  let spec := SELF_SPEC
  match check_platform_support spec target with
  | .error e => ⟨.error (.Registry e), state, false⟩
  | .ok _ =>
    match env.fetchRelease with
    | .error e => ⟨.error (.Github e), state, false⟩
    | .ok release =>
      match parse_release_version release.tag_name with
      | none => ⟨.error .VersionParse, state, false⟩
      | some latest_version =>
        let current_version :=
          (state.installed_version spec.name).getD compile_time_version
        if versionLe latest_version current_version then
          ⟨.ok (.AlreadyUpToDate spec.name current_version), state, false⟩
        else
          match find_asset release (asset_name spec.name target) with
          | none =>
            ⟨.error (.Github (.Network (.AssetNotFound spec.name target))), state, false⟩
          | some _asset =>
            let _checksum_url : Option String :=
              if spec.has_checksum then
                (find_asset release (checksum_asset_name spec.name target)).map
                  (·.browser_download_url)
              else none
            match env.downloadResult with
            | .error e => ⟨.error (.Download e), state, true⟩
            | .ok _ =>
              let state' :=
                state.record_install spec.name latest_version
                  (asset_name spec.name target) now
              ⟨.ok (.Updated spec.name (some current_version) latest_version), state', true⟩

/-- Rust `update::update_all`: self-update first, then every registry entry in
order, threading the mutable state; one result per binary, no early
abort.  `envOf` supplies each binary's effect oracle by name. -/
def update_all (target : String) (now : Int) (compile_time_version : Version)
    (selfEnv : UpdateEnv) (envOf : String → UpdateEnv) (state : AppState) :
    List (Except UpdateError UpdateResult) × AppState :=
  let first := self_update target now compile_time_version selfEnv state
  all_binaries.foldl
    (fun acc spec =>
      let o := update_binary target now spec (envOf spec.name) acc.2
      (acc.1 ++ [o.result], o.state))
    ([first.result], first.state)

def isErrB {ε α : Type} : Except ε α → Bool
  | .error _ => true
  | .ok _ => false

/-- Exit code of `main::handle_update` computed from the collected
results (`1` if any result failed, else `0`). -/
def handle_update_exit_code (results : List (Except UpdateError UpdateResult)) : Nat :=
  if results.any isErrB then 1 else 0

/-- The body of the `check_for_updates` loop for one state entry:
resolve the spec in the registry (a miss is skipped), fetch the latest
release (an error is silently skipped), parse the tag (a failure is
skipped), and report the entry when the latest version is strictly
greater than the recorded one. -/
def check_entry (fetchOf : String → Except IiiGithubError Release)
    (nb : String × BinaryState) : Option UpdateInfo :=
  match all_binaries.find? (fun s => s.name = nb.1) with
  | none => none
  | some _spec =>
    match fetchOf nb.1 with
    | .error _ => none -- silently skip on error
    | .ok release =>
      match parse_release_version release.tag_name with
      | none => none
      | some latest =>
        if versionLt nb.2.version latest then
          some ⟨nb.1, nb.2.version, latest⟩
        else none

/-- Rust `update::check_for_updates`: best-effort scan over the binaries
recorded in state.  `fetchOf` gives, per binary name, the outcome of
`fetch_latest_release` for that binary's spec. -/
def check_for_updates (fetchOf : String → Except IiiGithubError Release)
    (state : AppState) : List UpdateInfo :=
  state.binaries.filterMap (check_entry fetchOf)

/-- Rust `update::run_background_check`.  `clientOk` is whether
`github::build_client` succeeded; `timesOut` is whether the bounded
`tokio::time::timeout` elapsed before the scan finished (real time is
outside the embedding). -/
def run_background_check (clientOk timesOut : Bool)
    (fetchOf : String → Except IiiGithubError Release)
    (state : AppState) (now : Int) : Option (List UpdateInfo × Bool) :=
  if !(state.is_update_check_due now) then none
  else if !clientOk then none
  else if timesOut then none
  else some (check_for_updates fetchOf state, true)

/-! ## Advisory checker (src/advisory.rs)

`semver::VersionReq` is external; a parsed requirement is represented by
its matching predicate, and `parseReq` models `VersionReq::parse`
(`none` = parse failure). -/

structure Advisory where
  id : String
  severity : String
  affected_binary : String
  affected_versions : String
  fixed_version : String
  message : String
  url : Option String
deriving Repr

structure AdvisoriesDocument where
  advisories : List Advisory

structure MatchedAdvisory where
  advisory : Advisory
  installed_version : Version
deriving Repr

/-- The body of the `check_advisories` loop for one advisory: look the
affected binary up in state (a miss is skipped), parse the affected
range (a parse failure is skipped), and report a match when the range
matches the installed version (the source clones the advisory field by
field). -/
def advisory_entry (parseReq : String → Option (Version → Bool))
    (state : AppState) (adv : Advisory) : Option MatchedAdvisory :=
  match lookupAL state.binaries adv.affected_binary with
  | none => none
  | some binary_state =>
    match parseReq adv.affected_versions with
    | none => none
    | some req =>
      if req binary_state.version then
        some ⟨⟨adv.id, adv.severity, adv.affected_binary, adv.affected_versions,
               adv.fixed_version, adv.message, adv.url⟩, binary_state.version⟩
      else none

def check_advisories (parseReq : String → Option (Version → Bool))
    (doc : AdvisoriesDocument) (state : AppState) : List MatchedAdvisory :=
  doc.advisories.filterMap (advisory_entry parseReq state)

/-! ## Dispatch auto-install (src/main.rs, `handle_dispatch` else-branch)

The slice of `handle_dispatch` that runs when the binary is absent both
from the managed directory and from the search path: build a client,
fetch the latest release, locate the asset, download and install, then
record the release version in state — falling back to `0.0.0` when the
tag does not parse — and proceed to execute.  (The subsequent state save
is fire-and-forget in the source: its error is discarded.) -/

structure DispatchEnv where
  clientOk : Bool
  fetchRelease : Except IiiGithubError Release
  downloadResult : Except DownloadAndInstallError Unit

inductive DispatchStep where
  | exit (code : Nat)
  | proceed (state : AppState)
deriving Repr

def dispatch_auto_install (target : String) (now : Int) (spec : BinarySpec)
    (env : DispatchEnv) (state : AppState) : DispatchStep :=
  if !env.clientOk then .exit 1
  else
    match env.fetchRelease with
    | .error _ => .exit 1
    | .ok release =>
      match find_asset release (asset_name spec.name target) with
      | none => .exit 1
      | some _asset =>
        let _checksum_url : Option String :=
          if spec.has_checksum then
            (find_asset release (checksum_asset_name spec.name target)).map
              (·.browser_download_url)
          else none
        match env.downloadResult with
        | .error _ => .exit 1
        | .ok _ =>
          let version := (parse_release_version release.tag_name).getD ⟨0, 0, 0, [], []⟩
          .proceed (state.record_install spec.name version
            (asset_name spec.name target) now)

/-! ## Paths and the filesystem

Paths are strings; `std::path::Path::with_extension` is modelled on the
final path component (`file_stem` keeps everything before the last dot,
except that a lone leading dot starts no extension).  The filesystem is
a map from path to file entry plus a set of directories; each
`std::fs` primitive the installer uses is one explicit operation, so
that interruption between operations ("crash points") and a failing
rename are expressible. -/

/-- Split a path into directory part (ending in '/', or empty) and final
component. -/
def splitDirFile (p : List Char) : List Char × List Char :=
  let rev := p.reverse
  ((rev.dropWhile (· ≠ '/')).reverse, (rev.takeWhile (· ≠ '/')).reverse)

/-- Rust `Path::file_stem` on a file name. -/
def fileStem (f : List Char) : List Char :=
  let rev := f.reverse
  if rev.contains '.' then
    let before := (rev.dropWhile (· ≠ '.')).drop 1
    if before.isEmpty then f else before.reverse
  else f

/-- Rust `Path::with_extension`. -/
def withExtension (p : String) (ext : String) : String :=
  let df := splitDirFile p.data
  String.mk (df.1 ++ fileStem df.2 ++ '.' :: ext.data)

/-- Directory part of a path (`Path::parent`, up to the trailing '/'). -/
def dirOf (p : String) : String := String.mk (splitDirFile p.data).1

/-- A file entry: contents and unix permission bits. -/
structure FileEnt (α : Type) where
  data : α
  mode : Nat
deriving DecidableEq, Repr

/-- The filesystem state, with contents of type `α`. -/
structure FS (α : Type) where
  files : String → Option (FileEnt α)
  dirs : String → Bool

/-- One `std::fs` primitive (rename and remove are modelled separately,
as the failure/cleanup logic wraps them). -/
inductive FsOp (α : Type) where
  | createDirAll (p : String)
  /-- Rust `File::create` / `fs::write`: create or truncate with mode 0644. -/
  | createFile (p : String) (data : α)
  /-- Rust `write_all` on an open handle: replace contents, keep mode. -/
  | writeFile (p : String) (data : α)
  /-- Rust `fs::set_permissions`. -/
  | setPerm (p : String) (mode : Nat)

def applyFsOp {α : Type} (fs : FS α) : FsOp α → FS α
  | .createDirAll p => { fs with dirs := fun q => q = p || fs.dirs q }
  | .createFile p a =>
    { fs with files := fun q => if q = p then some ⟨a, 0o644⟩ else fs.files q }
  | .writeFile p a =>
    { fs with files := fun q =>
        if q = p then (fs.files p).map (fun e => ⟨a, e.mode⟩) else fs.files q }
  | .setPerm p m =>
    { fs with files := fun q =>
        if q = p then (fs.files p).map (fun e => ⟨e.data, m⟩) else fs.files q }

def runOps {α : Type} (fs : FS α) (ops : List (FsOp α)) : FS α :=
  ops.foldl applyFsOp fs

/-- Rust `fs::rename` (a same-path rename is a no-op). -/
def renameFs {α : Type} (fs : FS α) (src dst : String) : FS α :=
  if src = dst then fs
  else { fs with files := fun q =>
          if q = src then none
          else if q = dst then fs.files src
          else fs.files q }

/-- Rust `fs::remove_file`. -/
def removeFileFs {α : Type} (fs : FS α) (p : String) : FS α :=
  { fs with files := fun q => if q = p then none else fs.files q }

/-! ## Atomic binary install (src/download.rs, `atomic_write_binary`) -/

/-- The sequence of filesystem operations `atomic_write_binary` performs
before the final rename: ensure the parent directory, create the sibling
temp file, write all bytes, make it executable (the unix build).
`file.flush()` is a no-op in this model. -/
def atomic_write_ops (data : List Nat) (target_path : String) :
    List (FsOp (List Nat)) :=
  let temp_path := withExtension target_path "tmp"
  [ .createDirAll (dirOf target_path)
  , .createFile temp_path []
  , .writeFile temp_path data
  , .setPerm temp_path 0o755 ]

/-- Rust `download::atomic_write_binary`: run the write operations, then
rename the temp file over the target; if the rename fails, remove the
temp file and propagate the error. -/
def atomic_write_binary (data : List Nat) (target_path : String)
    (renameFails : Bool) (fs : FS (List Nat)) :
    Except ExtractError Unit × FS (List Nat) :=
  let temp_path := withExtension target_path "tmp"
  let fs1 := runOps fs (atomic_write_ops data target_path)
  if renameFails then (.error (.Io "rename failed"), removeFileFs fs1 temp_path)
  else (.ok (), renameFs fs1 temp_path target_path)

/-! ## JSON and state persistence (src/state.rs)

`serde_json` is modelled at the level of its value tree: `save`
serializes to a `Json` value (pretty-printing is presentation), `load`
parses one.  The derived `Serialize`/`Deserialize` for `AppState` and
`BinaryState` is translated field by field, including the
`#[serde(default)]` attributes; `semver::Version` serializes through its
`Display`/`FromStr` strings, and a `chrono` UTC instant serializes as
its (lossless) timestamp value. -/

inductive Json where
  | null
  | bool (b : Bool)
  | num (n : Int)
  | str (s : String)
  | arr (elems : List Json)
  | obj (fields : List (String × Json))
deriving Repr

inductive StateError where
  | ReadFailed (msg : String)
  | ParseFailed
  | Io (msg : String)
deriving DecidableEq, Repr

def binaryStateToJson (b : BinaryState) : Json :=
  .obj [ ("version", .str b.version.toStr)
       , ("installed_at", .num b.installed_at)
       , ("asset_name", .str b.asset_name) ]

def binaryStateFromJson : Json → Option BinaryState
  | .obj fields =>
    match lookupAL fields "version", lookupAL fields "installed_at",
          lookupAL fields "asset_name" with
    | some (.str vs), some (.num t), some (.str an) =>
      match Version.parse vs with
      | some v => some ⟨v, t, an⟩
      | none => none
    | _, _, _ => none
  | _ => none

def binariesFromJson : List (String × Json) → Option (List (String × BinaryState))
  | [] => some []
  | (k, j) :: rest =>
    match binaryStateFromJson j, binariesFromJson rest with
    | some b, some bs => some ((k, b) :: bs)
    | _, _ => none

def appStateToJson (s : AppState) : Json :=
  .obj [ ("binaries", .obj (s.binaries.map fun nb => (nb.1, binaryStateToJson nb.2)))
       , ("last_update_check",
          match s.last_update_check with
          | none => .null
          | some t => .num t)
       , ("update_check_interval_hours", .num s.update_check_interval_hours) ]

def appStateFromJson : Json → Option AppState
  | .obj fields =>
    let bins : Option (List (String × BinaryState)) :=
      match lookupAL fields "binaries" with
      | none => some [] -- #[serde(default)]
      | some (.obj bfields) => binariesFromJson bfields
      | some _ => none
    let last : Option (Option Int) :=
      match lookupAL fields "last_update_check" with
      | none => some none -- #[serde(default)]
      | some .null => some none
      | some (.num t) => some (some t)
      | some _ => none
    let interval : Option Nat :=
      match lookupAL fields "update_check_interval_hours" with
      | none => some 24 -- #[serde(default = "default_interval")]
      | some (.num n) => if 0 ≤ n then some n.toNat else none
      | some _ => none
    match bins, last, interval with
    | some b, some l, some i => some ⟨b, l, i⟩
    | _, _, _ => none
  | _ => none

/-- Rust `AppState::load`: absent file gives the default state; present file
is parsed, and malformed content is a hard parse failure. -/
def AppState.load (path : String) (fs : FS Json) : Except StateError AppState :=
  match fs.files path with
  | none => .ok AppState.default
  | some ent =>
    match appStateFromJson ent.data with
    | some s => .ok s
    | none => .error .ParseFailed

/-- The filesystem operations `AppState::save` performs before the final
rename: ensure the parent directory, write the serialized document to
the sibling `…json.tmp` file (`fs::write` creates-with-content). -/
def save_ops (s : AppState) (path : String) : List (FsOp Json) :=
  let temp_path := withExtension path "json.tmp"
  [ .createDirAll (dirOf path)
  , .createFile temp_path (appStateToJson s) ]

/-- Rust `AppState::save`: atomic write-to-temp-then-rename; a failing rename
removes the temp file and propagates the error. -/
def AppState.save (s : AppState) (path : String) (renameFails : Bool)
    (fs : FS Json) : Except StateError Unit × FS Json :=
  let temp_path := withExtension path "json.tmp"
  let fs1 := runOps fs (save_ops s path)
  if renameFails then (.error (.Io "rename failed"), removeFileFs fs1 temp_path)
  else (.ok (), renameFs fs1 temp_path path)

/-! ## Concrete fixtures used by the claim witnesses -/

def targetMusl : String := "x86_64-unknown-linux-musl"

def specConsole : BinarySpec := REGISTRY.getD 0 SELF_SPEC
def specTools : BinarySpec := REGISTRY.getD 1 SELF_SPEC
def specMotia : BinarySpec := REGISTRY.getD 2 SELF_SPEC
def specIii : BinarySpec := REGISTRY.getD 3 SELF_SPEC

def relConsole024 : Release :=
  { tag_name := "v0.2.4"
    assets := [{ name := asset_name "iii-console" targetMusl
                 browser_download_url := "https://example/a"
                 size := 1 }] }

def relNightly : Release :=
  { tag_name := "nightly"
    assets := [{ name := asset_name "iii-console" targetMusl
                 browser_download_url := "https://example/a"
                 size := 1 }] }

def rel999 : Release := { tag_name := "v9.9.9", assets := [] }

def envFresh : UpdateEnv :=
  { managedExists := false
    foundOnPath := false
    fetchRelease := .ok relConsole024
    downloadResult := .ok () }

def envInstalled : UpdateEnv :=
  { managedExists := true
    foundOnPath := false
    fetchRelease := .ok relConsole024
    downloadResult := .ok () }

def stateStale : AppState :=
  { binaries := [("iii-console", ⟨⟨9, 9, 9, [], []⟩, 0, "old.tar.gz"⟩)]
    last_update_check := none
    update_check_interval_hours := 24 }

def stateCli : AppState :=
  { binaries := [("iii-cli", ⟨⟨0, 1, 0, [], []⟩, 0, "iii-cli.tar.gz"⟩)]
    last_update_check := none
    update_check_interval_hours := 24 }

def stateConsole024 : AppState :=
  { binaries :=
      [("iii-console", ⟨⟨0, 2, 4, [], []⟩, 111, "iii-console-aarch64-apple-darwin.tar.gz"⟩)]
    last_update_check := some 222
    update_check_interval_hours := 24 }

def fsEmptyBytes : FS (List Nat) := { files := fun _ => none, dirs := fun _ => false }

def fsEmptyJson : FS Json := { files := fun _ => none, dirs := fun _ => false }

def envDispatch : DispatchEnv :=
  { clientOk := true
    fetchRelease := .ok relNightly
    downloadResult := .ok () }

def shaW : List Nat → String := fun _ => "ab"

def binPathW : String := "/home/user/.local/bin/iii-console"

def statePathW : String := "/home/user/.local/share/iii-cli/state.json"

/-- The `X.Y.Z` core of a rendered version. -/
def coreChars (M m p : Nat) : List Char :=
  natToChars M ++ ('.' :: (natToChars m ++ ('.' :: natToChars p)))

/-- Well-formed persisted state: every recorded version is well formed
(every version the program records comes out of `Version.parse`). -/
def AppState.wf (s : AppState) : Bool :=
  s.binaries.all (fun nb => nb.2.version.wf)

/-- The operation does not touch the file at `q` (directory creation
touches no file). -/
def FsOp.avoids {α : Type} (q : String) : FsOp α → Prop
  | .createDirAll _ => True
  | .createFile p _ => p ≠ q
  | .writeFile p _ => p ≠ q
  | .setPerm p _ => p ≠ q

/-! ## Lemmas: decimal numerals -/

theorem digitVal_digitCh {d : Nat} (h : d < 10) : digitVal (digitCh d) = d := by
  interval_cases d <;> decide

theorem isDigitCh_digitCh {d : Nat} (h : d < 10) : isDigitCh (digitCh d) = true := by
  interval_cases d <;> decide

theorem digitCh_ne_zeroCh {d : Nat} (h : d < 10) (h0 : d ≠ 0) : digitCh d ≠ '0' := by
  interval_cases d <;> simp_all <;> decide

theorem natToCharsAux_eq_digits :
    ∀ fuel n, n ≤ fuel → natToCharsAux fuel n = (Nat.digits 10 n).map digitCh := by
  intro fuel
  induction fuel with
  | zero =>
    intro n hn
    interval_cases n
    simp [natToCharsAux]
  | succ f ih =>
    intro n hn
    by_cases h : n = 0
    · subst h; simp [natToCharsAux]
    · have hdiv : n / 10 < n := Nat.div_lt_self (Nat.pos_of_ne_zero h) (by norm_num)
      rw [natToCharsAux, if_neg h,
        Nat.digits_def' (by norm_num : 1 < 10) (Nat.pos_of_ne_zero h), List.map_cons,
        ih (n / 10) (by omega)]

theorem natToChars_eq_digits {n : Nat} (h : n ≠ 0) :
    natToChars n = ((Nat.digits 10 n).map digitCh).reverse := by
  rw [natToChars, if_neg h, natToCharsAux_eq_digits n n le_rfl]

theorem mem_natToChars_digit {c : Char} {n : Nat} (h : c ∈ natToChars n) :
    isDigitCh c = true := by
  by_cases h0 : n = 0
  · subst h0; simp [natToChars] at h; subst h; decide
  · rw [natToChars_eq_digits h0] at h
    rw [List.mem_reverse, List.mem_map] at h
    obtain ⟨d, hd, rfl⟩ := h
    exact isDigitCh_digitCh (Nat.digits_lt_base (by norm_num) hd)

theorem charsToNat_natToChars (n : Nat) : charsToNat (natToChars n) = n := by
  by_cases h0 : n = 0
  · subst h0; decide
  · rw [natToChars_eq_digits h0, charsToNat, List.map_reverse, List.reverse_reverse,
      List.map_map]
    have : (Nat.digits 10 n).map (digitVal ∘ digitCh) = Nat.digits 10 n := by
      have h := List.map_congr_left (l := Nat.digits 10 n)
        (f := digitVal ∘ digitCh) (g := id)
        (fun d hd => digitVal_digitCh (Nat.digits_lt_base (by norm_num) hd))
      simpa using h
    rw [this, Nat.ofDigits_digits]

theorem numeralOk_natToChars (n : Nat) : numeralOk (natToChars n) = true := by
  by_cases h0 : n = 0
  · subst h0; decide
  · have hne : Nat.digits 10 n ≠ [] := Nat.digits_ne_nil_iff_ne_zero.mpr h0
    rw [numeralOk]
    refine (Bool.and_eq_true _ _).mpr ⟨(Bool.and_eq_true _ _).mpr ⟨?_, ?_⟩, ?_⟩
    · rw [natToChars_eq_digits h0]
      simp [List.isEmpty_iff, hne]
    · rw [List.all_eq_true]
      intro c hc
      exact mem_natToChars_digit (by simpa using hc)
    · refine Bool.or_eq_true_iff.mpr (Or.inl ?_)
      rw [natToChars_eq_digits h0]
      have hgl : ((Nat.digits 10 n).map digitCh).reverse.head? =
          ((Nat.digits 10 n).map digitCh).getLast? := List.head?_reverse _
      have hmne : (Nat.digits 10 n).map digitCh ≠ [] := by simpa using hne
      rw [hgl, List.getLast?_eq_getLast _ hmne, List.getLast_map _ _ hmne]
      have hlt : (Nat.digits 10 n).getLast hne < 10 :=
        Nat.digits_lt_base (by norm_num) (List.getLast_mem hne)
      have hnz : (Nat.digits 10 n).getLast hne ≠ 0 :=
        Nat.getLast_digit_ne_zero 10 h0
      simp only [bne_iff_ne, ne_eq, Option.some.injEq]
      exact digitCh_ne_zeroCh hlt hnz

theorem parseNumeral_natToChars (n : Nat) : parseNumeral (natToChars n) = some n := by
  rw [parseNumeral, if_pos (numeralOk_natToChars n), charsToNat_natToChars]

/-! ## Lemmas: splitting and joining -/

theorem splitFirst_not_mem {c : Char} {cs : List Char} (h : c ∉ cs) :
    splitFirst c cs = (cs, none) := by
  induction cs with
  | nil => rfl
  | cons x xs ih =>
    rw [List.mem_cons, not_or] at h
    rw [splitFirst, if_neg (fun hx => h.1 hx.symm), ih h.2]

theorem splitFirst_append {c : Char} {xs ys : List Char} (h : c ∉ xs) :
    splitFirst c (xs ++ c :: ys) = (xs, some ys) := by
  induction xs with
  | nil => simp [splitFirst]
  | cons x xs ih =>
    rw [List.mem_cons, not_or] at h
    rw [List.cons_append, splitFirst, if_neg (fun hx => h.1 hx.symm), ih h.2]

theorem splitOnCh_not_mem {c : Char} {cs : List Char} (h : c ∉ cs) :
    splitOnCh c cs = [cs] := by
  induction cs with
  | nil => rfl
  | cons x xs ih =>
    rw [List.mem_cons, not_or] at h
    rw [splitOnCh, if_neg (fun hx => h.1 hx.symm), ih h.2]

theorem splitOnCh_append {c : Char} {xs ys : List Char} (h : c ∉ xs) :
    splitOnCh c (xs ++ c :: ys) = xs :: splitOnCh c ys := by
  induction xs with
  | nil => simp [splitOnCh]
  | cons x xs ih =>
    rw [List.mem_cons, not_or] at h
    rw [List.cons_append, splitOnCh, if_neg (fun hx => h.1 hx.symm), ih h.2]

theorem splitOnCh_joinSep {c : Char} :
    ∀ {parts : List (List Char)}, parts ≠ [] → (∀ p ∈ parts, c ∉ p) →
      splitOnCh c (joinSep c parts) = parts
  | [], h, _ => absurd rfl h
  | [p], _, hmem => by
    rw [joinSep, splitOnCh_not_mem (hmem p (by simp))]
  | p :: q :: rest, _, hmem => by
    rw [joinSep, splitOnCh_append (hmem p (by simp)),
      splitOnCh_joinSep (by simp) (fun r hr => hmem r (List.mem_cons_of_mem p hr))]
    simp

theorem mem_joinSep {a c : Char} :
    ∀ {parts : List (List Char)}, a ∈ joinSep c parts →
      a = c ∨ ∃ p ∈ parts, a ∈ p
  | [], h => by simp [joinSep] at h
  | [p], h => by
    rw [joinSep] at h
    exact Or.inr ⟨p, by simp, h⟩
  | p :: q :: rest, h => by
    rw [joinSep] at h
    case x_1 => simp
    rw [List.mem_append, List.mem_cons] at h
    rcases h with hp | hc | hrest
    · exact Or.inr ⟨p, by simp, hp⟩
    · exact Or.inl hc
    · rcases mem_joinSep hrest with hc | ⟨r, hr, ha⟩
      · exact Or.inl hc
      · exact Or.inr ⟨r, List.mem_cons_of_mem p hr, ha⟩

/-! ## Lemmas: the version print/parse round trip -/

theorem mk_data (s : String) : String.mk s.data = s := rfl

theorem mapMkData (l : List String) : (l.map String.data).map String.mk = l := by
  rw [List.map_map]
  have h : String.mk ∘ String.data = id := funext mk_data
  rw [h, List.map_id]


theorem mapMkCompData (l : List String) :
    List.map ((fun d => String.mk d) ∘ String.data) l = l := by
  have h : ((fun d => String.mk d) ∘ String.data) = id := funext fun s => mk_data s
  rw [h, List.map_id]

theorem not_mem_natToChars {c : Char} (hc : isDigitCh c = false) (n : Nat) :
    c ∉ natToChars n := by
  intro h
  rw [mem_natToChars_digit h] at hc
  cases hc

theorem not_mem_core {c : Char} (hc : isDigitCh c = false) (hdot : c ≠ '.')
    (M m p : Nat) : c ∉ coreChars M m p := by
  intro h
  rw [coreChars, List.mem_append] at h
  rcases h with h1 | h2
  · exact absurd (mem_natToChars_digit h1) (by simp [hc])
  · rcases List.mem_cons.mp h2 with h3 | h4
    · exact hdot h3
    · rcases List.mem_append.mp h4 with h5 | h6
      · exact absurd (mem_natToChars_digit h5) (by simp [hc])
      · rcases List.mem_cons.mp h6 with h7 | h8
        · exact hdot h7
        · exact absurd (mem_natToChars_digit h8) (by simp [hc])

theorem core_split (M m p : Nat) :
    splitOnCh '.' (coreChars M m p) = [natToChars M, natToChars m, natToChars p] := by
  have h : coreChars M m p = joinSep '.' [natToChars M, natToChars m, natToChars p] := by
    simp [coreChars, joinSep]
  rw [h]
  exact splitOnCh_joinSep (by simp)
    (by
      intro q hq
      simp only [List.mem_cons, List.mem_singleton] at hq
      rcases hq with rfl | rfl | rfl | h
      · exact not_mem_natToChars (by decide) _
      · exact not_mem_natToChars (by decide) _
      · exact not_mem_natToChars (by decide) _
      · cases h)

theorem preIdentOk_all {cs : List Char} (h : preIdentOk cs = true) :
    cs.all isIdentCh = true := by
  rw [preIdentOk, Bool.and_eq_true, Bool.and_eq_true] at h
  exact h.1.2

theorem buildIdentOk_all {cs : List Char} (h : buildIdentOk cs = true) :
    cs.all isIdentCh = true := by
  rw [buildIdentOk, Bool.and_eq_true] at h
  exact h.2

theorem not_mem_ident_join {c : Char} (hc : isIdentCh c = false) (hdot : c ≠ '.')
    {parts : List String} (hall : ∀ s ∈ parts, s.data.all isIdentCh = true) :
    c ∉ joinSep '.' (parts.map String.data) := by
  intro h
  rcases mem_joinSep h with rfl | ⟨q, hq, hcq⟩
  · exact hdot rfl
  · rcases List.mem_map.mp hq with ⟨s, hs, rfl⟩
    have := (List.all_eq_true.mp (hall s hs)) _ hcq
    rw [this] at hc
    cases hc

theorem dot_not_mem_ident {s : String} (hall : s.data.all isIdentCh = true) :
    '.' ∉ s.data := by
  intro h
  have := (List.all_eq_true.mp hall) _ h
  cases this

theorem splitOnCh_join_idents {parts : List String} (hne : parts ≠ [])
    (hall : ∀ s ∈ parts, s.data.all isIdentCh = true) :
    splitOnCh '.' (joinSep '.' (parts.map String.data)) = parts.map String.data := by
  refine splitOnCh_joinSep (by simpa using hne) ?_
  intro q hq
  rcases List.mem_map.mp hq with ⟨s, hs, rfl⟩
  exact dot_not_mem_ident (hall s hs)

theorem toChars_eq (M m p : Nat) (pre build : List String) :
    Version.toChars ⟨M, m, p, pre, build⟩ =
      coreChars M m p ++
        ((match pre with
          | [] => []
          | ps => '-' :: joinSep '.' (ps.map String.data)) ++
         (match build with
          | [] => []
          | bs => '+' :: joinSep '.' (bs.map String.data))) := by
  simp [Version.toChars, coreChars, List.append_assoc]

theorem parseChars_toChars (M m p : Nat) (pre build : List String)
    (hpre : ∀ s ∈ pre, preIdentOk s.data = true)
    (hbuild : ∀ s ∈ build, buildIdentOk s.data = true) :
    Version.parseChars (Version.toChars ⟨M, m, p, pre, build⟩) =
      some ⟨M, m, p, pre, build⟩ := by
  have hplus_core : '+' ∉ coreChars M m p := not_mem_core (by decide) (by decide) M m p
  have hminus_core : '-' ∉ coreChars M m p := not_mem_core (by decide) (by decide) M m p
  have hallpre : ∀ s ∈ pre, s.data.all isIdentCh = true :=
    fun s hs => preIdentOk_all (hpre s hs)
  have hallbuild : ∀ s ∈ build, buildIdentOk s.data = true := hbuild
  have hallbuild' : ∀ s ∈ build, s.data.all isIdentCh = true :=
    fun s hs => buildIdentOk_all (hbuild s hs)
  rw [toChars_eq]
  cases pre with
  | nil =>
    cases build with
    | nil =>
      simp only [List.append_nil]
      simp only [Version.parseChars]
      rw [splitFirst_not_mem hplus_core]
      dsimp only
      rw [splitFirst_not_mem hminus_core]
      dsimp only
      rw [core_split]
      simp [parseNumeral_natToChars]
    | cons b0 bs =>
      have hplus_bjoin : '+' ∉ joinSep '.' ((b0 :: bs).map String.data) :=
        not_mem_ident_join (by decide) (by decide) hallbuild'
      simp only [List.nil_append]
      simp only [Version.parseChars]
      rw [splitFirst_append hplus_core]
      dsimp only
      rw [splitFirst_not_mem hminus_core]
      dsimp only
      rw [core_split]
      simp only [parseNumeral_natToChars]
      rw [splitOnCh_join_idents (by simp) hallbuild']
      have hbok : ((b0 :: bs).map String.data).all buildIdentOk = true := by
        rw [List.all_eq_true]
        intro q hq
        rcases List.mem_map.mp hq with ⟨s, hs, rfl⟩
        exact hallbuild s hs
      rw [hbok]
      simp [mapMkData, mapMkCompData]
  | cons p0 ps =>
    have hplus_pjoin : '+' ∉ joinSep '.' ((p0 :: ps).map String.data) :=
      not_mem_ident_join (by decide) (by decide) hallpre
    have hpok : ((p0 :: ps).map String.data).all preIdentOk = true := by
      rw [List.all_eq_true]
      intro q hq
      rcases List.mem_map.mp hq with ⟨s, hs, rfl⟩
      exact hpre s hs
    cases build with
    | nil =>
      simp only [List.append_nil]
      simp only [Version.parseChars]
      rw [splitFirst_not_mem (c := '+') (by
        intro h
        rcases List.mem_append.mp h with h1 | h2
        · exact hplus_core h1
        · rcases List.mem_cons.mp h2 with h3 | h4
          · cases h3
          · exact hplus_pjoin h4)]
      dsimp only
      rw [splitFirst_append hminus_core]
      dsimp only
      rw [core_split]
      simp only [parseNumeral_natToChars]
      rw [splitOnCh_join_idents (by simp) hallpre]
      rw [hpok]
      simp [mapMkData, mapMkCompData]
    | cons b0 bs =>
      have hplus_bjoin : '+' ∉ joinSep '.' ((b0 :: bs).map String.data) :=
        not_mem_ident_join (by decide) (by decide) hallbuild'
      simp only [Version.parseChars]
      rw [show coreChars M m p ++
            (('-' :: joinSep '.' ((p0 :: ps).map String.data)) ++
             ('+' :: joinSep '.' ((b0 :: bs).map String.data))) =
          (coreChars M m p ++ ('-' :: joinSep '.' ((p0 :: ps).map String.data))) ++
            '+' :: joinSep '.' ((b0 :: bs).map String.data) by
        simp [List.append_assoc]]
      rw [splitFirst_append (c := '+') (by
        intro h
        rcases List.mem_append.mp h with h1 | h2
        · exact hplus_core h1
        · rcases List.mem_cons.mp h2 with h3 | h4
          · cases h3
          · exact hplus_pjoin h4)]
      dsimp only
      rw [splitFirst_append hminus_core]
      dsimp only
      rw [core_split]
      simp only [parseNumeral_natToChars]
      rw [splitOnCh_join_idents (by simp) hallpre,
        splitOnCh_join_idents (by simp) hallbuild']
      have hbok : ((b0 :: bs).map String.data).all buildIdentOk = true := by
        rw [List.all_eq_true]
        intro q hq
        rcases List.mem_map.mp hq with ⟨s, hs, rfl⟩
        exact hallbuild s hs
      rw [hpok, hbok]
      simp [mapMkData, mapMkCompData]

/-- The round trip at the heart of state serialization: printing a
well-formed version and parsing it back is the identity. -/
theorem version_parse_toStr {v : Version} (hwf : v.wf = true) :
    Version.parse v.toStr = some v := by
  obtain ⟨M, m, p, pre, build⟩ := v
  rw [Version.wf, Bool.and_eq_true, List.all_eq_true, List.all_eq_true] at hwf
  exact parseChars_toChars M m p pre build
    (fun s hs => hwf.1 s hs) (fun s hs => hwf.2 s hs)

/-! ## Lemmas: state serialization round trip -/

theorem binaryState_roundtrip {b : BinaryState} (h : b.version.wf = true) :
    binaryStateFromJson (binaryStateToJson b) = some b := by
  obtain ⟨v, t, an⟩ := b
  simp only [binaryStateToJson, binaryStateFromJson, lookupAL]
  simp only [show (("version" : String) = "version") = True by simp,
    show (("version" : String) = "installed_at") = False by simp,
    show (("version" : String) = "asset_name") = False by simp,
    show (("installed_at" : String) = "installed_at") = True by simp,
    show (("installed_at" : String) = "asset_name") = False by simp,
    show (("asset_name" : String) = "asset_name") = True by simp,
    if_true, if_false]
  rw [version_parse_toStr h]

theorem binariesFromJson_roundtrip :
    ∀ {l : List (String × BinaryState)},
      (∀ nb ∈ l, nb.2.version.wf = true) →
      binariesFromJson (l.map fun nb => (nb.1, binaryStateToJson nb.2)) = some l
  | [], _ => rfl
  | nb :: rest, h => by
    rw [List.map_cons, binariesFromJson,
      binaryState_roundtrip (h nb (by simp)),
      binariesFromJson_roundtrip (fun x hx => h x (List.mem_cons_of_mem nb hx))]

theorem appState_roundtrip {s : AppState} (h : s.wf = true) :
    appStateFromJson (appStateToJson s) = some s := by
  obtain ⟨bins, last, interval⟩ := s
  rw [AppState.wf, List.all_eq_true] at h
  simp only [appStateToJson, appStateFromJson, lookupAL]
  simp only [show (("binaries" : String) = "binaries") = True by simp,
    show (("binaries" : String) = "last_update_check") = False by simp,
    show (("binaries" : String) = "update_check_interval_hours") = False by simp,
    show (("last_update_check" : String) = "last_update_check") = True by simp,
    show (("last_update_check" : String) = "update_check_interval_hours") = False by simp,
    show (("update_check_interval_hours" : String) = "update_check_interval_hours") = True
      by simp,
    if_true, if_false]
  rw [binariesFromJson_roundtrip (fun nb hnb => h nb hnb)]
  cases last with
  | none => simp
  | some t => simp

/-! ## Lemmas: paths -/

theorem takeWhile_eq_self {α : Type} {p : α → Bool} :
    ∀ {l : List α}, (∀ x ∈ l, p x = true) → l.takeWhile p = l
  | [], _ => rfl
  | x :: xs, h => by
    rw [List.takeWhile_cons, if_pos (h x (by simp)),
      takeWhile_eq_self (fun y hy => h y (List.mem_cons_of_mem x hy))]

theorem dropWhile_eq_nil {α : Type} {p : α → Bool} :
    ∀ {l : List α}, (∀ x ∈ l, p x = true) → l.dropWhile p = []
  | [], _ => rfl
  | x :: xs, h => by
    rw [List.dropWhile_cons, if_pos (h x (by simp))]
    exact dropWhile_eq_nil (fun y hy => h y (List.mem_cons_of_mem x hy))

theorem dropWhile_head_not {α : Type} {p : α → Bool} :
    ∀ (l : List α), l.dropWhile p = [] ∨
      ∃ x t, l.dropWhile p = x :: t ∧ p x = false
  | [] => Or.inl rfl
  | x :: xs => by
    rw [List.dropWhile_cons]
    by_cases h : p x = true
    · rw [if_pos h]
      exact dropWhile_head_not xs
    · rw [if_neg h]
      exact Or.inr ⟨x, xs, rfl, Bool.not_eq_true _ ▸ Bool.of_not_eq_true h⟩

theorem splitDirFile_append {d f : List Char} (hf : '/' ∉ f)
    (hd : d = [] ∨ d.getLast? = some '/') : splitDirFile (d ++ f) = (d, f) := by
  have hfall : ∀ x ∈ f.reverse, (fun c => decide (c ≠ '/')) x = true := by
    intro x hx
    simp only [decide_eq_true_eq]
    exact fun hxeq => hf (hxeq ▸ List.mem_reverse.mp hx)
  rw [splitDirFile, List.reverse_append]
  rcases hd with rfl | hlast
  · simp only [List.reverse_nil, List.append_nil]
    rw [takeWhile_eq_self hfall, dropWhile_eq_nil hfall]
    simp
  · obtain ⟨ys, rfl⟩ := List.getLast?_eq_some_iff.mp hlast
    rw [List.reverse_append]
    simp only [List.reverse_cons, List.reverse_nil, List.nil_append, List.singleton_append]
    rw [List.takeWhile_append, takeWhile_eq_self hfall, if_pos rfl,
      List.dropWhile_append, dropWhile_eq_nil hfall]
    simp [List.takeWhile_cons, List.dropWhile_cons]

theorem splitDirFile_recombine (p : List Char) :
    (splitDirFile p).1 ++ (splitDirFile p).2 = p ∧ '/' ∉ (splitDirFile p).2 ∧
      ((splitDirFile p).1 = [] ∨ (splitDirFile p).1.getLast? = some '/') := by
  refine ⟨?_, ?_, ?_⟩
  · rw [splitDirFile]
    dsimp only
    rw [← List.reverse_append, List.takeWhile_append_dropWhile, List.reverse_reverse]
  · intro h
    rw [splitDirFile] at h
    dsimp only at h
    have := List.mem_takeWhile_imp (List.mem_reverse.mp h)
    simp at this
  · rw [splitDirFile]
    dsimp only
    rcases dropWhile_head_not (p := fun c => decide (c ≠ '/')) p.reverse with h | ⟨x, t, h, hx⟩
    · rw [h]; exact Or.inl rfl
    · rw [h]
      refine Or.inr ?_
      rw [List.getLast?_reverse]
      simp only [List.head?_cons, Option.some.injEq]
      simpa using hx

theorem mem_fileStem {x : Char} {f : List Char} (h : x ∈ fileStem f) : x ∈ f := by
  rw [fileStem] at h
  dsimp only at h
  by_cases hc : f.reverse.contains '.'
  · rw [if_pos hc] at h
    by_cases he : ((f.reverse.dropWhile (· ≠ '.')).drop 1).isEmpty
    · rwa [if_pos he] at h
    · rw [if_neg he] at h
      have h1 : x ∈ (f.reverse.dropWhile (· ≠ '.')).drop 1 := List.mem_reverse.mp h
      have h2 : x ∈ f.reverse.dropWhile (· ≠ '.') := List.drop_subset 1 _ h1
      exact List.mem_reverse.mp ((List.dropWhile_sublist _).subset h2)
  · rwa [if_neg hc] at h

theorem dirOf_withExtension (p ext : String) (hext : '/' ∉ ext.data) :
    dirOf (withExtension p ext) = dirOf p := by
  obtain ⟨hcomb, hfile, hdir⟩ := splitDirFile_recombine p.data
  rw [withExtension, dirOf]
  have hnew : '/' ∉ fileStem (splitDirFile p.data).2 ++ ('.' :: ext.data) := by
    intro h
    rcases List.mem_append.mp h with h1 | h2
    · exact hfile (mem_fileStem h1)
    · rcases List.mem_cons.mp h2 with h3 | h4
      · cases h3
      · exact hext h4
  have : (String.mk ((splitDirFile p.data).1 ++ fileStem (splitDirFile p.data).2 ++
      '.' :: ext.data)).data =
      (splitDirFile p.data).1 ++ (fileStem (splitDirFile p.data).2 ++ ('.' :: ext.data)) := by
    simp [List.append_assoc]
  rw [this, splitDirFile_append hnew hdir, dirOf]

/-! ## Lemmas: filesystem runs -/

theorem applyFsOp_files_avoid {α : Type} (fs : FS α) {q : String} {op : FsOp α}
    (h : op.avoids q) : (applyFsOp fs op).files q = fs.files q := by
  cases op with
  | createDirAll p => rfl
  | createFile p a =>
    dsimp only [applyFsOp]
    rw [if_neg (Ne.symm h)]
  | writeFile p a =>
    dsimp only [applyFsOp]
    rw [if_neg (Ne.symm h)]
  | setPerm p m =>
    dsimp only [applyFsOp]
    rw [if_neg (Ne.symm h)]

theorem runOps_files_avoid {α : Type} {q : String} :
    ∀ (ops : List (FsOp α)) (fs : FS α), (∀ op ∈ ops, FsOp.avoids q op) →
      (runOps fs ops).files q = fs.files q
  | [], _, _ => rfl
  | op :: ops, fs, h => by
    have h1 : runOps fs (op :: ops) = runOps (applyFsOp fs op) ops := rfl
    rw [h1, runOps_files_avoid ops _ (fun o ho => h o (List.mem_cons_of_mem op ho)),
      applyFsOp_files_avoid fs (h op (by simp))]

theorem atomic_write_ops_avoid (data : List Nat) (target q : String)
    (h : withExtension target "tmp" ≠ q) :
    ∀ op ∈ atomic_write_ops data target, FsOp.avoids q op := by
  intro op hop
  simp only [atomic_write_ops, List.mem_cons, List.not_mem_nil, or_false] at hop
  rcases hop with rfl | rfl | rfl | rfl
  · trivial
  · exact h
  · exact h
  · exact h

theorem atomic_write_run_temp (data : List Nat) (target : String) (fs : FS (List Nat)) :
    (runOps fs (atomic_write_ops data target)).files (withExtension target "tmp") =
      some ⟨data, 0o755⟩ := by
  simp [atomic_write_ops, runOps, applyFsOp]

theorem atomic_write_run_dirs (data : List Nat) (target : String) (fs : FS (List Nat)) :
    (runOps fs (atomic_write_ops data target)).dirs (dirOf target) = true := by
  simp [atomic_write_ops, runOps, applyFsOp]

theorem save_ops_avoid (s : AppState) (path q : String)
    (h : withExtension path "json.tmp" ≠ q) :
    ∀ op ∈ save_ops s path, FsOp.avoids q op := by
  intro op hop
  simp only [save_ops, List.mem_cons, List.not_mem_nil, or_false] at hop
  rcases hop with rfl | rfl
  · trivial
  · exact h

theorem save_run_temp (s : AppState) (path : String) (fs : FS Json) :
    (runOps fs (save_ops s path)).files (withExtension path "json.tmp") =
      some ⟨appStateToJson s, 0o644⟩ := by
  simp [save_ops, runOps, applyFsOp]

/-! ## The claims -/

/-- C1: for every binary spec and every state, if the executable is
absent from disk (neither at the managed path nor on the search path)
then `update_binary` never returns `AlreadyUpToDate` — even when the
state records a version ≥ the latest — and a successful outcome is
always `Updated` with `from = none` (a fresh install, not an upgrade). -/
theorem update_binary_fresh_install (target : String) (now : Int) (spec : BinarySpec)
    (env : UpdateEnv) (state : AppState)
    (habs : env.managedExists = false ∧ env.foundOnPath = false) :
    ∀ r, (update_binary target now spec env state).result = .ok r →
      ∃ binary to_ver, r = .Updated binary none to_ver := by
  intro r hr
  obtain ⟨h1, h2⟩ := habs
  have hbi : is_binary_installed env = false := by
    rw [is_binary_installed, h1, h2]
    rfl
  cases hcp : check_platform_support spec target with
  | error e =>
    simp only [update_binary, hcp] at hr
    cases hr
  | ok u =>
    cases hf : env.fetchRelease with
    | error e =>
      simp only [update_binary, hcp, hf] at hr
      cases hr
    | ok release =>
      cases hp : parse_release_version release.tag_name with
      | none =>
        simp only [update_binary, hcp, hf, hp] at hr
        cases hr
      | some latest =>
        cases ha : find_asset release (asset_name spec.name target) with
        | none =>
          simp only [update_binary, hcp, hf, hp, hbi, ha, Bool.false_eq_true,
            if_false] at hr
          cases hr
        | some asset =>
          simp only [update_binary, hcp, hf, hp, hbi, ha, Bool.false_eq_true,
            if_false] at hr
          cases hd : env.downloadResult with
          | error e =>
            rw [hd] at hr
            simp at hr
          | ok u2 =>
            rw [hd] at hr
            simp only [Except.ok.injEq] at hr
            exact ⟨spec.name, latest, hr.symm⟩

/-- C1 witness: a stale state records iii-console 9.9.9 (≥ the remote
0.2.4) but the file is gone; the update still succeeds as a fresh
install with `from = none`. -/
theorem update_binary_fresh_install_witness :
    (envFresh.managedExists = false ∧ envFresh.foundOnPath = false) ∧
    (∃ binary to_ver,
      UpdateResult.Updated "iii-console" none ⟨0, 2, 4, [], []⟩ =
        .Updated binary none to_ver) :=
  ⟨⟨rfl, rfl⟩,
    update_binary_fresh_install targetMusl 0 specConsole envFresh stateStale
      ⟨rfl, rfl⟩ (.Updated "iii-console" none ⟨0, 2, 4, [], []⟩) (by decide)⟩

/-- C4: when the binary is genuinely present on disk and the persisted
version is ≥ the latest remote version, `update_binary` returns
`AlreadyUpToDate` carrying the persisted version, does not reach the
download/install step, and leaves the state unchanged. -/
theorem update_binary_already_up_to_date (target : String) (now : Int)
    (spec : BinarySpec) (env : UpdateEnv) (state : AppState) (release : Release)
    (latest installed : Version)
    (hsup : check_platform_support spec target = .ok ())
    (hins : is_binary_installed env = true)
    (hrel : env.fetchRelease = .ok release)
    (hparse : parse_release_version release.tag_name = some latest)
    (hver : state.installed_version spec.name = some installed)
    (hle : versionLe latest installed = true) :
    update_binary target now spec env state =
      ⟨.ok (.AlreadyUpToDate spec.name installed), state, false⟩ := by
  simp only [update_binary, hsup, hins, hrel, hparse, hver, hle, if_true]

/-- C4 witness: iii-console present on disk at recorded version 9.9.9,
remote latest 0.2.4: the outcome is `AlreadyUpToDate 9.9.9` with no
download and the state unchanged. -/
theorem update_binary_already_up_to_date_witness :
    (check_platform_support specConsole targetMusl = .ok () ∧
     is_binary_installed envInstalled = true ∧
     envInstalled.fetchRelease = .ok relConsole024 ∧
     parse_release_version relConsole024.tag_name = some ⟨0, 2, 4, [], []⟩ ∧
     stateStale.installed_version "iii-console" = some ⟨9, 9, 9, [], []⟩ ∧
     versionLe ⟨0, 2, 4, [], []⟩ ⟨9, 9, 9, [], []⟩ = true) ∧
    update_binary targetMusl 0 specConsole envInstalled stateStale =
      ⟨.ok (.AlreadyUpToDate specConsole.name ⟨9, 9, 9, [], []⟩), stateStale, false⟩ :=
  ⟨⟨by decide, rfl, rfl, by decide, by decide, by decide⟩,
    update_binary_already_up_to_date targetMusl 0 specConsole envInstalled stateStale
      relConsole024 ⟨0, 2, 4, [], []⟩ ⟨9, 9, 9, [], []⟩
      (by decide) rfl rfl (by decide) (by decide) (by decide)⟩


/-- C2: installing a binary and saving the state are atomic.  For the
binary install: the bytes go to the sibling `.tmp` file in the target's
directory (created if needed), the file gets mode 0755, and the temp
file is renamed over the final path; no temp file survives a successful
write; interrupting the process at any point before the rename leaves
the target exactly as it was (so the target path never holds a partial
artifact); a failing rename removes the temp file before the error
propagates and leaves the target unchanged.  The same holds for
`AppState::save` with its sibling `…json.tmp` file (mode 0644, no
executable bit). -/
theorem atomic_write_atomicity
    (data : List Nat) (target : String) (fs : FS (List Nat))
    (s : AppState) (path : String) (gs : FS Json)
    (hbt : withExtension target "tmp" ≠ target)
    (hsp : withExtension path "json.tmp" ≠ path) :
    ((atomic_write_binary data target false fs).1 = .ok () ∧
     (atomic_write_binary data target false fs).2.files target = some ⟨data, 0o755⟩ ∧
     (atomic_write_binary data target false fs).2.files (withExtension target "tmp") =
       none ∧
     (atomic_write_binary data target false fs).2.dirs (dirOf target) = true ∧
     dirOf (withExtension target "tmp") = dirOf target) ∧
    (∀ k, (runOps fs ((atomic_write_ops data target).take k)).files target =
      fs.files target) ∧
    ((∃ e, (atomic_write_binary data target true fs).1 = .error e) ∧
     (atomic_write_binary data target true fs).2.files (withExtension target "tmp") =
       none ∧
     (atomic_write_binary data target true fs).2.files target = fs.files target) ∧
    ((AppState.save s path false gs).1 = .ok () ∧
     (AppState.save s path false gs).2.files path = some ⟨appStateToJson s, 0o644⟩ ∧
     (AppState.save s path false gs).2.files (withExtension path "json.tmp") = none ∧
     dirOf (withExtension path "json.tmp") = dirOf path) ∧
    (∀ k, (runOps gs ((save_ops s path).take k)).files path = gs.files path) ∧
    ((∃ e, (AppState.save s path true gs).1 = .error e) ∧
     (AppState.save s path true gs).2.files (withExtension path "json.tmp") = none ∧
     (AppState.save s path true gs).2.files path = gs.files path) := by
  have hbt' : ¬(target = withExtension target "tmp") := fun h => hbt h.symm
  have hsp' : ¬(path = withExtension path "json.tmp") := fun h => hsp h.symm
  refine ⟨⟨rfl, ?_, ?_, ?_, dirOf_withExtension target "tmp" (by decide)⟩, ?_,
    ⟨⟨.Io "rename failed", rfl⟩, ?_, ?_⟩,
    ⟨rfl, ?_, ?_, dirOf_withExtension path "json.tmp" (by decide)⟩, ?_,
    ⟨⟨.Io "rename failed", rfl⟩, ?_, ?_⟩⟩
  · show (renameFs (runOps fs (atomic_write_ops data target))
        (withExtension target "tmp") target).files target = some ⟨data, 0o755⟩
    rw [renameFs, if_neg hbt]
    show (if target = withExtension target "tmp" then none
      else if target = target then
        (runOps fs (atomic_write_ops data target)).files (withExtension target "tmp")
      else (runOps fs (atomic_write_ops data target)).files target) = some ⟨data, 0o755⟩
    rw [if_neg hbt', if_pos rfl, atomic_write_run_temp]
  · show (renameFs (runOps fs (atomic_write_ops data target))
        (withExtension target "tmp") target).files (withExtension target "tmp") = none
    rw [renameFs, if_neg hbt]
    show (if withExtension target "tmp" = withExtension target "tmp" then none
      else if withExtension target "tmp" = target then
        (runOps fs (atomic_write_ops data target)).files (withExtension target "tmp")
      else (runOps fs (atomic_write_ops data target)).files (withExtension target "tmp")) =
      none
    rw [if_pos rfl]
  · show (renameFs (runOps fs (atomic_write_ops data target))
        (withExtension target "tmp") target).dirs (dirOf target) = true
    rw [renameFs, if_neg hbt]
    exact atomic_write_run_dirs data target fs
  · intro k
    exact runOps_files_avoid _ fs
      (fun op hop => atomic_write_ops_avoid data target target hbt op
        (List.take_subset k _ hop))
  · show (removeFileFs (runOps fs (atomic_write_ops data target))
        (withExtension target "tmp")).files (withExtension target "tmp") = none
    show (if withExtension target "tmp" = withExtension target "tmp" then none
      else (runOps fs (atomic_write_ops data target)).files (withExtension target "tmp")) =
      none
    rw [if_pos rfl]
  · show (removeFileFs (runOps fs (atomic_write_ops data target))
        (withExtension target "tmp")).files target = fs.files target
    show (if target = withExtension target "tmp" then none
      else (runOps fs (atomic_write_ops data target)).files target) = fs.files target
    rw [if_neg hbt']
    exact runOps_files_avoid _ fs (atomic_write_ops_avoid data target target hbt)
  · show (renameFs (runOps gs (save_ops s path))
        (withExtension path "json.tmp") path).files path = some ⟨appStateToJson s, 0o644⟩
    rw [renameFs, if_neg hsp]
    show (if path = withExtension path "json.tmp" then none
      else if path = path then
        (runOps gs (save_ops s path)).files (withExtension path "json.tmp")
      else (runOps gs (save_ops s path)).files path) = some ⟨appStateToJson s, 0o644⟩
    rw [if_neg hsp', if_pos rfl, save_run_temp]
  · show (renameFs (runOps gs (save_ops s path))
        (withExtension path "json.tmp") path).files (withExtension path "json.tmp") = none
    rw [renameFs, if_neg hsp]
    show (if withExtension path "json.tmp" = withExtension path "json.tmp" then none
      else if withExtension path "json.tmp" = path then
        (runOps gs (save_ops s path)).files (withExtension path "json.tmp")
      else (runOps gs (save_ops s path)).files (withExtension path "json.tmp")) = none
    rw [if_pos rfl]
  · intro k
    exact runOps_files_avoid _ gs
      (fun op hop => save_ops_avoid s path path hsp op (List.take_subset k _ hop))
  · show (removeFileFs (runOps gs (save_ops s path))
        (withExtension path "json.tmp")).files (withExtension path "json.tmp") = none
    show (if withExtension path "json.tmp" = withExtension path "json.tmp" then none
      else (runOps gs (save_ops s path)).files (withExtension path "json.tmp")) = none
    rw [if_pos rfl]
  · show (removeFileFs (runOps gs (save_ops s path))
        (withExtension path "json.tmp")).files path = gs.files path
    show (if path = withExtension path "json.tmp" then none
      else (runOps gs (save_ops s path)).files path) = gs.files path
    rw [if_neg hsp']
    exact runOps_files_avoid _ gs (save_ops_avoid s path path hsp)

/-- C2 witness: a concrete install of three bytes to the managed binary
path on an empty filesystem, with the state file path as the save
target. -/
theorem atomic_write_atomicity_witness :
    (withExtension binPathW "tmp" ≠ binPathW) ∧
    (withExtension statePathW "json.tmp" ≠ statePathW) ∧
    ((atomic_write_binary [7, 7, 7] binPathW false fsEmptyBytes).1 = .ok () ∧
     (atomic_write_binary [7, 7, 7] binPathW false fsEmptyBytes).2.files binPathW =
       some ⟨[7, 7, 7], 0o755⟩ ∧
     (atomic_write_binary [7, 7, 7] binPathW false fsEmptyBytes).2.files
       (withExtension binPathW "tmp") = none ∧
     (atomic_write_binary [7, 7, 7] binPathW false fsEmptyBytes).2.dirs
       (dirOf binPathW) = true ∧
     dirOf (withExtension binPathW "tmp") = dirOf binPathW) :=
  ⟨by decide, by decide,
    (atomic_write_atomicity [7, 7, 7] binPathW fsEmptyBytes AppState.default statePathW
      fsEmptyJson (by decide) (by decide)).1⟩


/-- C3: checksum verification succeeds exactly when the digest of the
downloaded bytes equals the first whitespace-delimited token of the
sidecar (the sidecar's tokens are lowercase hex, per the interface
contract; the hypothesis `hlower` records that); on any discrepancy it
fails with a checksum-mismatch error carrying the asset name, the
expected digest and the actual digest.  The SHA-256 digest routine of
the `sha2` crate is universally quantified, so the statement holds for
the real digest in particular. -/
theorem verify_checksum_iff (sha256hex : List Nat → String) (checksum_text : String)
    (data : List Nat) (asset : String) (tok : List Char)
    (htok : firstToken checksum_text = some tok)
    (hlower : tok.map Char.toLower = tok) :
    (verify_checksum sha256hex checksum_text data asset = .ok () ↔
      sha256hex data = String.mk tok) ∧
    (sha256hex data ≠ String.mk tok →
      verify_checksum sha256hex checksum_text data asset =
        .error (.ChecksumMismatch asset (String.mk tok) (sha256hex data))) := by
  simp only [verify_checksum, htok, hlower]
  by_cases he : sha256hex data = String.mk tok
  · rw [if_pos he]
    exact ⟨⟨fun _ => he, fun _ => rfl⟩, fun hne => absurd he hne⟩
  · rw [if_neg he]
    refine ⟨⟨fun h => ?_, fun h => absurd h he⟩, fun _ => rfl⟩
    cases h

/-- C3 witness: a sidecar whose first token is "ab" against a digest
routine returning "ab": verification succeeds, and the iff and the
mismatch-error shape hold at this concrete input. -/
theorem verify_checksum_iff_witness :
    (firstToken "ab  iii-console.tar.gz" = some ['a', 'b'] ∧
     ['a', 'b'].map Char.toLower = ['a', 'b']) ∧
    ((verify_checksum shaW "ab  iii-console.tar.gz" [1] "iii-console.tar.gz" = .ok () ↔
       shaW [1] = String.mk ['a', 'b']) ∧
     (shaW [1] ≠ String.mk ['a', 'b'] →
       verify_checksum shaW "ab  iii-console.tar.gz" [1] "iii-console.tar.gz" =
         .error (.ChecksumMismatch "iii-console.tar.gz" (String.mk ['a', 'b'])
           (shaW [1])))) :=
  ⟨⟨by decide, by decide⟩,
    verify_checksum_iff shaW "ab  iii-console.tar.gz" [1] "iii-console.tar.gz"
      ['a', 'b'] (by decide) (by decide)⟩

/-- C5: saving a well-formed `AppState` and loading it back succeeds and
yields the identical state — the same binary records (names, versions,
install timestamps, asset names), the same last-update-check timestamp
and the same interval. -/
theorem save_load_roundtrip (s : AppState) (path : String) (fs : FS Json)
    (hwf : s.wf = true)
    (htp : withExtension path "json.tmp" ≠ path) :
    (AppState.save s path false fs).1 = .ok () ∧
    AppState.load path (AppState.save s path false fs).2 = .ok s := by
  refine ⟨rfl, ?_⟩
  have hfile : (renameFs (runOps fs (save_ops s path)) (withExtension path "json.tmp")
      path).files path = some ⟨appStateToJson s, 0o644⟩ := by
    rw [renameFs, if_neg htp]
    show (if path = withExtension path "json.tmp" then none
      else if path = path then
        (runOps fs (save_ops s path)).files (withExtension path "json.tmp")
      else (runOps fs (save_ops s path)).files path) = some ⟨appStateToJson s, 0o644⟩
    rw [if_neg (fun h => htp h.symm), if_pos rfl, save_run_temp]
  show AppState.load path
    (renameFs (runOps fs (save_ops s path)) (withExtension path "json.tmp") path) = .ok s
  simp only [AppState.load, hfile, appState_roundtrip hwf]

/-- C5 witness: the round trip on a state holding iii-console 0.2.4 with
its install instant and asset name, a recorded check instant, and the
default interval, at the conventional state-file path. -/
theorem save_load_roundtrip_witness :
    (stateConsole024.wf = true ∧ withExtension statePathW "json.tmp" ≠ statePathW) ∧
    ((AppState.save stateConsole024 statePathW false fsEmptyJson).1 = .ok () ∧
     AppState.load statePathW
       (AppState.save stateConsole024 statePathW false fsEmptyJson).2 =
         .ok stateConsole024) :=
  ⟨⟨by decide, by decide⟩,
    save_load_roundtrip stateConsole024 statePathW fsEmptyJson (by decide) (by decide)⟩

/-- C6: `is_update_check_due` is true exactly when no check has ever
completed or the elapsed whole hours since the last check reach the
configured interval; a freshly marked state is not due again immediately
(for a positive interval), and once the elapsed hours reach the interval
it is due again.  (The hypothesis keeps the `u64 → i64` cast of the
interval out of wraparound; every real interval is far below it.) -/
theorem is_update_check_due_iff (s : AppState) (now : Int)
    (hival : s.update_check_interval_hours < 2 ^ 63) :
    (s.is_update_check_due now = true ↔
      s.last_update_check = none ∨
        ∃ last, s.last_update_check = some last ∧
          (s.update_check_interval_hours : Int) ≤ numHours (now - last)) ∧
    (0 < s.update_check_interval_hours →
      (s.mark_update_checked now).is_update_check_due now = false) ∧
    (∀ later last, s.last_update_check = some last →
      (s.update_check_interval_hours : Int) ≤ numHours (later - last) →
      s.is_update_check_due later = true) := by
  have h64 : s.update_check_interval_hours < 2 ^ 64 :=
    lt_trans hival (by norm_num)
  have hcast : u64AsI64 s.update_check_interval_hours =
      (s.update_check_interval_hours : Int) := by
    rw [u64AsI64, Nat.mod_eq_of_lt h64, if_pos hival,
      Int.emod_eq_of_lt (Int.natCast_nonneg _) (by exact_mod_cast h64)]
  refine ⟨?_, ?_, ?_⟩
  · cases hl : s.last_update_check with
    | none => simp [AppState.is_update_check_due, hl]
    | some last =>
      simp only [AppState.is_update_check_due, hl, hcast, decide_eq_true_eq]
      constructor
      · intro h
        exact Or.inr ⟨last, rfl, h⟩
      · intro h
        rcases h with h | ⟨last2, hl2, h⟩
        · cases h
        · cases hl2
          exact h
  · intro hpos
    show decide (u64AsI64 s.update_check_interval_hours ≤ numHours (now - now)) = false
    rw [sub_self, hcast]
    simp only [numHours, Int.zero_tdiv, decide_eq_false_iff_not, not_le]
    exact_mod_cast hpos
  · intro later last hlast hle
    simp only [AppState.is_update_check_due, hlast, hcast, decide_eq_true_eq]
    exact hle

/-- C6 witness: with the default 24-hour interval, a state marked checked
at instant 500 is not due at 500; a state last checked at instant 222
(nanoseconds) is due again 24 hours (in nanoseconds) later. -/
theorem is_update_check_due_iff_witness :
    (stateConsole024.update_check_interval_hours < 2 ^ 63 ∧
     0 < stateConsole024.update_check_interval_hours ∧
     stateConsole024.last_update_check = some 222) ∧
    ((stateConsole024.mark_update_checked 500).is_update_check_due 500 = false) ∧
    (stateConsole024.is_update_check_due (222 + 86400000000000) = true) :=
  ⟨⟨by decide, by decide, rfl⟩,
    (is_update_check_due_iff stateConsole024 500 (by decide)).2.1 (by decide),
    (is_update_check_due_iff stateConsole024 (222 + 86400000000000) (by decide)).2.2
      (222 + 86400000000000) 222 rfl (by decide)⟩


/-- Shared helper: the update command's exit code is 0 exactly when every
result succeeded and 1 exactly when some result failed. -/
theorem handle_update_exit_code_iff (rs : List (Except UpdateError UpdateResult)) :
    (handle_update_exit_code rs = 0 ↔ ∀ r ∈ rs, isErrB r = false) ∧
    (handle_update_exit_code rs = 1 ↔ ∃ r ∈ rs, isErrB r = true) := by
  rw [handle_update_exit_code]
  by_cases h : rs.any isErrB = true
  · rw [if_pos h]
    rcases List.any_eq_true.mp h with ⟨r, hr, hrr⟩
    constructor
    · constructor
      · intro h1
        cases h1
      · intro hall
        rw [hall r hr] at hrr
        cases hrr
    · exact ⟨fun _ => ⟨r, hr, hrr⟩, fun _ => rfl⟩
  · rw [if_neg h]
    have hall := List.any_eq_false.mp (Bool.eq_false_iff.mpr h)
    constructor
    · exact ⟨fun _ r hr => Bool.eq_false_iff.mpr (hall r hr), fun _ => rfl⟩
    · constructor
      · intro h1
        cases h1
      · rintro ⟨r, hr, hrr⟩
        exact absurd hrr (hall r hr)

/-- C7: `update_all` runs the self-update first and then `update_binary`
for every registry entry in order, threading the state, with no early
abort: for every environment — including ones where any subset of the
updates fail — the result list is exactly one self-update result
followed by one result per registry entry (so its length is
`1 + |REGISTRY|`), and the update command's exit code is 0 exactly when
all results succeeded and 1 exactly when at least one failed. -/
theorem update_all_structure (target : String) (now : Int) (ctv : Version)
    (selfEnv : UpdateEnv) (envOf : String → UpdateEnv) (state : AppState) :
    (update_all target now ctv selfEnv envOf state).1.length = 1 + REGISTRY.length ∧
    update_all target now ctv selfEnv envOf state =
      (let u0 := self_update target now ctv selfEnv state
       let u1 := update_binary target now specConsole (envOf "iii-console") u0.state
       let u2 := update_binary target now specTools (envOf "iii-tools") u1.state
       let u3 := update_binary target now specMotia (envOf "motia-cli") u2.state
       let u4 := update_binary target now specIii (envOf "iii") u3.state
       ([u0.result, u1.result, u2.result, u3.result, u4.result], u4.state)) ∧
    (handle_update_exit_code (update_all target now ctv selfEnv envOf state).1 = 0 ↔
      ∀ r ∈ (update_all target now ctv selfEnv envOf state).1, isErrB r = false) ∧
    (handle_update_exit_code (update_all target now ctv selfEnv envOf state).1 = 1 ↔
      ∃ r ∈ (update_all target now ctv selfEnv envOf state).1, isErrB r = true) :=
  ⟨rfl, rfl, (handle_update_exit_code_iff _).1, (handle_update_exit_code_iff _).2⟩

/-- Helper for C8: what the per-entry scan body reports. -/
theorem check_entry_some_iff (fetchOf : String → Except IiiGithubError Release)
    (nb : String × BinaryState) (u : UpdateInfo) :
    check_entry fetchOf nb = some u ↔
      (all_binaries.find? (fun s2 => s2.name = nb.1)).isSome = true ∧
      ∃ rel, fetchOf nb.1 = .ok rel ∧
        ∃ latest, parse_release_version rel.tag_name = some latest ∧
          versionLt nb.2.version latest = true ∧
          u = ⟨nb.1, nb.2.version, latest⟩ := by
  constructor
  · intro hf
    rw [check_entry] at hf
    cases hfind : all_binaries.find? (fun s2 => s2.name = nb.1) with
    | none =>
      rw [hfind] at hf
      simp at hf
    | some spec =>
      rw [hfind] at hf
      dsimp only at hf
      cases hrel : fetchOf nb.1 with
      | error e =>
        rw [hrel] at hf
        simp at hf
      | ok rel =>
        rw [hrel] at hf
        dsimp only at hf
        cases hp : parse_release_version rel.tag_name with
        | none =>
          rw [hp] at hf
          simp at hf
        | some latest =>
          rw [hp] at hf
          dsimp only at hf
          by_cases hlt : versionLt nb.2.version latest = true
          · rw [if_pos hlt] at hf
            cases hf
            exact ⟨rfl, rel, rfl, latest, hp, hlt, rfl⟩
          · rw [if_neg hlt] at hf
            simp at hf
  · rintro ⟨hsome, rel, hrel, latest, hp, hlt, rfl⟩
    obtain ⟨spec, hspec⟩ := Option.isSome_iff_exists.mp hsome
    rw [check_entry, hspec]
    dsimp only
    rw [hrel]
    dsimp only
    rw [hp]
    dsimp only
    rw [if_pos hlt]

/-- C8 (amended): the background check is a no-op when a check is not
yet due or the bounded timeout fires; when due, with a working client
and no timeout, it returns the scan result together with the
persist-the-timestamp flag; and the scan reports exactly those state
entries that also resolve in the registry and whose latest remote
version is strictly greater than the recorded one, silently skipping
entries whose release fetch or version parse fails. -/
theorem run_background_check_amended (clientOk timesOut : Bool)
    (fetchOf : String → Except IiiGithubError Release) (state : AppState) (now : Int) :
    (state.is_update_check_due now = false →
      run_background_check clientOk timesOut fetchOf state now = none) ∧
    (timesOut = true →
      run_background_check clientOk timesOut fetchOf state now = none) ∧
    (state.is_update_check_due now = true → clientOk = true → timesOut = false →
      run_background_check clientOk timesOut fetchOf state now =
        some (check_for_updates fetchOf state, true)) ∧
    (∀ u, u ∈ check_for_updates fetchOf state ↔
      ∃ nb ∈ state.binaries,
        (all_binaries.find? (fun s2 => s2.name = nb.1)).isSome = true ∧
        ∃ rel, fetchOf nb.1 = .ok rel ∧
          ∃ latest, parse_release_version rel.tag_name = some latest ∧
            versionLt nb.2.version latest = true ∧
            u = ⟨nb.1, nb.2.version, latest⟩) := by
  refine ⟨?_, ?_, ?_, ?_⟩
  · intro h
    simp [run_background_check, h]
  · intro h
    by_cases hd : state.is_update_check_due now <;>
      by_cases hc : clientOk <;>
        simp [run_background_check, h, hd, hc]
  · intro h1 h2 h3
    simp [run_background_check, h1, h2, h3]
  · intro u
    rw [check_for_updates, List.mem_filterMap]
    constructor
    · rintro ⟨nb, hnb, hf⟩
      exact ⟨nb, hnb, (check_entry_some_iff fetchOf nb u).mp hf⟩
    · rintro ⟨nb, hnb, hrest⟩
      exact ⟨nb, hnb, (check_entry_some_iff fetchOf nb u).mpr hrest⟩

/-- C8 witness: a due state recording iii-console 0.2.4 against a remote
release 9.9.9 produces the scan result and the persist flag. -/
theorem run_background_check_amended_witness :
    (stateCli.is_update_check_due 5 = true) ∧
    run_background_check true false (fun _ => .ok rel999) stateCli 5 =
      some (check_for_updates (fun _ => .ok rel999) stateCli, true) :=
  ⟨by decide,
    (run_background_check_amended true false (fun _ => .ok rel999) stateCli 5).2.2.1
      (by decide) rfl rfl⟩

/-- C8 counterexample to the claim as frozen: after a self-update the
state records "iii-cli", which has no registry entry; with a release
fetch that succeeds for every name and reports 9.9.9 — strictly greater
than the recorded 0.1.0 — the scan still returns nothing, so the claim's
"returns exactly those entries whose latest remote version is strictly
greater than the recorded installed version" fails on this entry. -/
theorem check_for_updates_skips_unregistered :
    lookupAL stateCli.binaries "iii-cli" =
      some ⟨⟨0, 1, 0, [], []⟩, 0, "iii-cli.tar.gz"⟩ ∧
    (fun (_ : String) => (Except.ok rel999 : Except IiiGithubError Release)) "iii-cli" =
      .ok rel999 ∧
    parse_release_version rel999.tag_name = some ⟨9, 9, 9, [], []⟩ ∧
    versionLt ⟨0, 1, 0, [], []⟩ ⟨9, 9, 9, [], []⟩ = true ∧
    check_for_updates (fun _ => .ok rel999) stateCli = [] := by
  refine ⟨by decide, rfl, by decide, by decide, by decide⟩

/-- C9: in the dispatch auto-download path, a release tag that fails
semantic-version parsing does not abort the install: the flow still
proceeds and the binary is recorded in state with the fallback version
0.0.0. -/
theorem dispatch_fallback_version (target : String) (now : Int) (spec : BinarySpec)
    (env : DispatchEnv) (state : AppState) (release : Release) (asset : ReleaseAsset)
    (hclient : env.clientOk = true)
    (hrel : env.fetchRelease = .ok release)
    (hasset : find_asset release (asset_name spec.name target) = some asset)
    (hdl : env.downloadResult = .ok ())
    (hparse : parse_release_version release.tag_name = none) :
    dispatch_auto_install target now spec env state =
      .proceed (state.record_install spec.name ⟨0, 0, 0, [], []⟩
        (asset_name spec.name target) now) := by
  simp only [dispatch_auto_install, hclient, hrel, hasset, hdl, hparse,
    Bool.not_true, Bool.false_eq_true, if_false, Option.getD_none]

/-- C9 witness: the tag "nightly" does not parse; dispatch still records
iii-console at version 0.0.0 with the platform asset name. -/
theorem dispatch_fallback_version_witness :
    (envDispatch.clientOk = true ∧
     parse_release_version relNightly.tag_name = none) ∧
    dispatch_auto_install targetMusl 3 specConsole envDispatch AppState.default =
      .proceed (AppState.default.record_install specConsole.name ⟨0, 0, 0, [], []⟩
        (asset_name specConsole.name targetMusl) 3) :=
  ⟨⟨rfl, by decide⟩,
    dispatch_fallback_version targetMusl 3 specConsole envDispatch AppState.default
      relNightly
      ⟨asset_name "iii-console" targetMusl, "https://example/a", 1⟩
      rfl rfl (by decide) rfl (by decide)⟩

/-- C10: `check_advisories` reports a match exactly for the advisories
whose affected binary has an entry in the state's binaries map and
whose affected-versions string parses to a requirement matching the
installed version; an advisory with an unparsable range or naming a
binary not in state is silently skipped, and the function is total (it
returns a plain list, never an error).  `VersionReq::parse` is
universally quantified as `parseReq`, a parsed requirement being
represented by its matching predicate. -/
theorem check_advisories_iff (parseReq : String → Option (Version → Bool))
    (doc : AdvisoriesDocument) (state : AppState) :
    ∀ m, m ∈ check_advisories parseReq doc state ↔
      ∃ adv ∈ doc.advisories,
        ∃ bs, lookupAL state.binaries adv.affected_binary = some bs ∧
        ∃ req, parseReq adv.affected_versions = some req ∧ req bs.version = true ∧
        m = ⟨⟨adv.id, adv.severity, adv.affected_binary, adv.affected_versions,
             adv.fixed_version, adv.message, adv.url⟩, bs.version⟩ := by
  intro m
  rw [check_advisories, List.mem_filterMap]
  refine exists_congr fun adv => and_congr_right fun _ => ?_
  constructor
  · intro hf
    rw [advisory_entry] at hf
    cases hlk : lookupAL state.binaries adv.affected_binary with
    | none =>
      rw [hlk] at hf
      simp at hf
    | some bs =>
      rw [hlk] at hf
      dsimp only at hf
      cases hpr : parseReq adv.affected_versions with
      | none =>
        rw [hpr] at hf
        simp at hf
      | some req =>
        rw [hpr] at hf
        dsimp only at hf
        by_cases hm : req bs.version = true
        · rw [if_pos hm] at hf
          cases hf
          exact ⟨bs, rfl, req, rfl, hm, rfl⟩
        · rw [if_neg hm] at hf
          simp at hf
  · rintro ⟨bs, hlk, req, hpr, hm, rfl⟩
    rw [advisory_entry, hlk]
    dsimp only
    rw [hpr]
    dsimp only
    rw [if_pos hm]

end III
